import Mathlib

/-!
Shallow embedding of the value-conversion layer of the gosnowflake driver
(`statement.go`): `goTypeToSnowflake`, `valueToString`, `extractTimestamp`
and `stringToValue`, together with the pieces of the Go standard library
they use (`strconv.ParseInt`, `strconv.FormatInt` / `FormatUint`,
`strings.Repeat`, `strings.Split`, and the fragment of `time.Time` that
is observable here).

Conventions of the embedding:
* machine integers are modelled as `Int`/`Nat`; `strconv.ParseInt` with
  `bitSize` 64 performs its 64-bit range check explicitly;
* a Go panic is modelled as a distinguished result constructor
  (`.panicked` / `Option.none` for `strings.Repeat`);
* the out-parameter `dest *driver.Value` of `stringToValue` is modelled
  by passing the current contents of `*dest` in and returning the new
  contents in the `.ok` result;
* the process-local timezone used by `time.Time.Zone` is a parameter
  `zone : Int → Int` mapping an absolute unix second to the offset in
  seconds east of UTC at that instant;
* floating-point kinds are outside the embedding (binary float
  formatting is not modelled), so the `GoValue` model omits them.
-/

/-- Value of a decimal digit character, `none` for any other character.
Mirrors the per-character acceptance of Go `strconv.ParseUint` in base 10. -/
def digitVal (c : Char) : Option Nat :=
  if '0' ≤ c ∧ c ≤ '9' then some (c.toNat - 48) else none

/-- Character for a decimal digit, as in Go strconv's digit table. -/
def digitChar (d : Nat) : Char := Char.ofNat (48 + d)

/-- Accumulating base-10 parse of a character list, `none` on the first
non-digit. -/
def parseDigitsAux (acc : Nat) : List Char → Option Nat
  | [] => some acc
  | c :: cs =>
    match digitVal c with
    | some d => parseDigitsAux (acc * 10 + d) cs
    | none => none

/-- Base-10 parse of a nonempty all-digit character list. -/
def parseDigits : List Char → Option Nat
  | [] => none
  | cs => parseDigitsAux 0 cs

/-- Smallest value of Go `int64`. -/
def int64Min : Int := -(2 ^ 63)

/-- Largest value of Go `int64`. -/
def int64Max : Int := 2 ^ 63 - 1

/-- The 64-bit range check done by `strconv.ParseInt(s, 10, 64)`:
out-of-range values are reported as an error (`none`). -/
def int64Range (v : Int) : Option Int :=
  if int64Min ≤ v ∧ v ≤ int64Max then some v else none

/-- Go `strconv.ParseInt(s, 10, 64)`: an optional sign followed by at
least one decimal digit, value within the `int64` range; `none` models a
non-nil error. -/
def parseInt64 (s : String) : Option Int :=
  match s.data with
  | [] => none
  | c :: cs =>
    if c = '-' then
      match parseDigits cs with
      | some m => int64Range (-(m : Int))
      | none => none
    else if c = '+' then
      match parseDigits cs with
      | some m => int64Range (m : Int)
      | none => none
    else
      match parseDigits (c :: cs) with
      | some m => int64Range (m : Int)
      | none => none

/-- Decimal digits of `n`, most significant first, `[]` for `0`.
The fuel argument makes the division loop of Go `strconv.formatBits`
structurally recursive; `fuel ≥ n` is always sufficient since a number
has fewer digits than its own value (for `n ≥ 1`). -/
def natToDigitsCore (fuel : Nat) (n : Nat) : List Char :=
  match fuel with
  | 0 => []
  | fuel + 1 => if n = 0 then [] else natToDigitsCore fuel (n / 10) ++ [digitChar (n % 10)]

/-- Decimal digits of `n`, most significant first, `[]` for `0`. -/
def natToDigits (n : Nat) : List Char := natToDigitsCore n n

/-- Go `strconv.FormatUint(n, 10)`. -/
def formatNat (n : Nat) : String :=
  if n = 0 then "0" else String.mk (natToDigits n)

/-- Go `strconv.FormatInt(n, 10)`. -/
def formatInt (n : Int) : String :=
  if n < 0 then String.mk ('-' :: natToDigits n.natAbs) else formatNat n.toNat

/-- Go `strings.Repeat(s, count)`: panics (modelled as `none`) when
`count` is negative. -/
def stringsRepeat (s : String) (count : Int) : Option String :=
  if count < 0 then none
  else some (String.mk (List.flatten (List.replicate count.toNat s.data)))

/-- Split a character list at every occurrence of `sep`, keeping empty
segments; the result is always nonempty. -/
def splitOnChar (sep : Char) : List Char → List (List Char)
  | [] => [[]]
  | c :: cs =>
    if c = sep then [] :: splitOnChar sep cs
    else
      match splitOnChar sep cs with
      | r :: rs => (c :: r) :: rs
      | [] => [[c]]

/-- Go `strings.Split(s, sep)` for the one-character separator used in
`statement.go` (a single space). -/
def stringsSplit (s : String) (sep : Char) : List String :=
  (splitOnChar sep s.data).map String.mk

/-- Location attached to a `time.Time`: UTC, the process-local zone, or
a fixed offset in minutes. -/
inductive GoLoc where
  | utc : GoLoc
  | localZone : GoLoc
  | fixedOffset (minutes : Int) : GoLoc
deriving DecidableEq, Repr

/-- The observable part of a Go `time.Time`: the absolute instant as
nanoseconds since the unix epoch, plus the attached location. -/
structure GoTime where
  unixNs : Int
  loc : GoLoc
deriving DecidableEq, Repr

/-- Go `time.Unix(sec, nsec)`: instant `sec` seconds + `nsec`
nanoseconds since the epoch, in the process-local zone. -/
def timeUnix (sec nsec : Int) : GoTime :=
  ⟨sec * 1000000000 + nsec, .localZone⟩

/-- Go `time.Time.UTC()`. -/
def GoTime.toUTC (t : GoTime) : GoTime := ⟨t.unixNs, .utc⟩

/-- Go `time.Time.Add(d)` for a duration of `d` nanoseconds. -/
def GoTime.add (t : GoTime) (d : Int) : GoTime := ⟨t.unixNs + d, t.loc⟩

/-- Go `time.Time.In(loc)`. -/
def GoTime.inLoc (t : GoTime) (l : GoLoc) : GoTime := ⟨t.unixNs, l⟩

/-- Go `time.Time{}`, the zero time (January 1, year 1, 00:00:00 UTC),
which is 62135596800 seconds before the unix epoch. -/
def goZeroTime : GoTime := ⟨-62135596800000000000, .utc⟩

/-- The offset in seconds returned by Go `time.Time.Zone()`, where
`zone` gives the process-local offset at an absolute unix second. -/
def zoneOffsetAt (zone : Int → Int) (t : GoTime) : Int :=
  match t.loc with
  | .localZone => zone (t.unixNs.fdiv 1000000000)
  | .utc => 0
  | .fixedOffset m => m * 60

/-- Modelled from the spec: `sfutil.LocationWithOffset` (a package of
this repository whose source is not available here) builds the
fixed-offset location for the given signed minute offset, per §4.4 of
the specification ("attached to a fixed-offset zone equal to the
decoded minute offset"). -/
def locationWithOffset (minutes : Int) : GoLoc := .fixedOffset minutes

/-- The values a `driver.Value` destination can hold in this layer. -/
inductive DriverValue where
  | null : DriverValue
  | str (s : String) : DriverValue
  | int64V (n : Int) : DriverValue
  | timeV (t : GoTime) : DriverValue
deriving DecidableEq, Repr

/-- Errors returned by `stringToValue`: a propagated `strconv` parse
error, or a `SnowflakeError` with number `ErrInvalidTimestampTz`
carrying the raw string in its message. -/
inductive SfError where
  | parseError : SfError
  | invalidTimestampTz (raw : String) : SfError
deriving DecidableEq, Repr

/-- Outcome of one `stringToValue` call: normal return carrying the new
contents of `*dest`, an error return (which leaves `*dest` untouched),
or a runtime panic. -/
inductive SfResult where
  | ok (dest : DriverValue) : SfResult
  | err (e : SfError) : SfResult
  | panicked : SfResult
deriving DecidableEq, Repr

/-- The only field of `execResponseRowType` read by this layer: the
logical column type string (`Type` in the Go struct). -/
structure ExecResponseRowType where
  colType : String
deriving DecidableEq, Repr

/-- Outcome of `extractTimestamp`: the `(sec, nsec)` pair, a `strconv`
error, or a panic (from `strings.Repeat` with a negative count). -/
inductive TsResult where
  | ok (sec nsec : Int) : TsResult
  | err : TsResult
  | panicked : TsResult
deriving DecidableEq, Repr

/-- First-dot split: `some (pre, post)` when the list is
`pre ++ '.' :: post` with no dot in `pre`; `none` when there is no dot.
This is the scan loop at the top of `extractTimestamp`. -/
def splitAtFirstDot : List Char → Option (List Char × List Char)
  | [] => none
  | c :: cs =>
    if c = '.' then some ([], cs)
    else
      match splitAtFirstDot cs with
      | some (pre, post) => some (c :: pre, post)
      | none => none

/-- `extractTimestamp` from `statement.go`: scan for the first `'.'`;
with no fraction parse the whole string as seconds (nanoseconds 0);
otherwise parse the prefix as seconds and the suffix, right-padded with
`strings.Repeat("0", 9-len(s))` zeros, as nanoseconds. -/
def extractTimestamp (srcValue : String) : TsResult :=
  match splitAtFirstDot srcValue.data with
  | none =>
    match parseInt64 srcValue with
    | some sec => .ok sec 0
    | none => .err
  | some (pre, post) =>
    match parseInt64 (String.mk pre) with
    | none => .err
    | some sec =>
      match stringsRepeat "0" (9 - (post.length : Int)) with
      | none => .panicked
      | some pad =>
        match parseInt64 (String.mk post ++ pad) with
        | some nsec => .ok sec nsec
        | none => .err

/-- The reflect kinds of caller-supplied values this layer can see. -/
inductive GoKind where
  | kNil : GoKind
  | kBool : GoKind
  | kInt : GoKind
  | kUint : GoKind
  | kString : GoKind
  | kSlice : GoKind
  | kMap : GoKind
  | kStruct : GoKind
  | kOther : GoKind
deriving DecidableEq, Repr

/-- A caller-supplied Go value as seen by `goTypeToSnowflake` and
`valueToString`: the reflect kind together with the data those two
functions inspect. `typeName` is the Go type's string form (used by the
type switch and by `reflect.Value.String` on non-string kinds). -/
inductive GoValue where
  | goNil : GoValue
  | boolV (b : Bool) : GoValue
  | intV (n : Int) : GoValue
  | uintV (n : Nat) : GoValue
  | stringV (s : String) : GoValue
  | sliceV (isNilSlice : Bool) (typeName : String) : GoValue
  | mapV (isNilMap : Bool) (typeName : String) : GoValue
  | structV (typeName : String) : GoValue
  | otherV (kindName : String) : GoValue
deriving DecidableEq, Repr

/-- The reflect kind of a `GoValue`. -/
def kindOf : GoValue → GoKind
  | .goNil => .kNil
  | .boolV _ => .kBool
  | .intV _ => .kInt
  | .uintV _ => .kUint
  | .stringV _ => .kString
  | .sliceV _ _ => .kSlice
  | .mapV _ _ => .kMap
  | .structV _ => .kStruct
  | .otherV _ => .kOther

/-- `goTypeToSnowflake` from `statement.go`: the type switch mapping a
bound value's dynamic type to the wire type tag. Only the exact type
`time.Time` hits the `DATE` case; every other struct falls through to
the default `TEXT`. -/
def goTypeToSnowflake (v : GoValue) : String :=
  match v with
  | .intV _ => "FIXED"
  | .uintV _ => "FIXED"
  | .boolV _ => "BOOLEAN"
  | .structV tn => if tn = "time.Time" then "DATE" else "TEXT"
  | .stringV _ => "TEXT"
  | _ => "TEXT"

/-- Outcome of `valueToString`: normal return of `(*string, nil)` where
`none` is a nil pointer (SQL null), an `Unexpected type` error carrying
the kind, or a runtime panic. -/
inductive EncodeResult where
  | ok (s : Option String) : EncodeResult
  | err (kindName : String) : EncodeResult
  | panicked : EncodeResult
deriving DecidableEq, Repr

/-- `reflect.Value.String()` on a non-string kind: the placeholder
string naming the type, never the contents. -/
def reflectValueString (typeName : String) : String :=
  "<" ++ typeName ++ " Value>"

/-- `valueToString` from `statement.go`: dispatch on the reflect kind.
In the `Slice, Map, Struct` arm the code calls `reflect.Value.IsNil`,
which panics for the `Struct` kind (`IsNil` is only defined on
chan, func, interface, map, pointer and slice values). -/
def valueToString (v : GoValue) : EncodeResult :=
  match v with
  | .goNil => .ok none
  | .boolV b => .ok (some (if b then "true" else "false"))
  | .intV n => .ok (some (formatInt n))
  | .uintV n => .ok (some (formatNat n))
  | .stringV s => .ok (some s)
  | .sliceV isNilSlice tn =>
    if isNilSlice then .ok none else .ok (some (reflectValueString tn))
  | .mapV isNilMap tn =>
    if isNilMap then .ok none else .ok (some (reflectValueString tn))
  | .structV _ => .panicked
  | .otherV kindName => .err kindName

/-- `stringToValue` from `statement.go`. `destVal` is the current
contents of `*dest`; a normal return carries the (possibly updated)
contents. The `srcValue == nil` branch executes `dest = nil`, which
reassigns the local pointer parameter and leaves `*dest` untouched.
The `"time"` branch of the source inlines a character-for-character
copy of the `extractTimestamp` algorithm, embedded here by calling
`extractTimestamp`. -/
def stringToValue (zone : Int → Int) (destVal : DriverValue)
    (srcColumnMeta : ExecResponseRowType) (srcValue : Option String) : SfResult :=
  match srcValue with
  | none => .ok destVal
  | some src =>
    if srcColumnMeta.colType = "text" then .ok (.str src)
    else if srcColumnMeta.colType = "date" then
      match parseInt64 src with
      | none => .err .parseError
      | some v => .ok (.timeV (timeUnix (v * 86400) 0).toUTC)
    else if srcColumnMeta.colType = "time" then
      match extractTimestamp src with
      | .err => .err .parseError
      | .panicked => .panicked
      | .ok sec nsec => .ok (.timeV (goZeroTime.add (sec * 1000000000 + nsec)))
    else if srcColumnMeta.colType = "timestamp_ntz" then
      match extractTimestamp src with
      | .err => .err .parseError
      | .panicked => .panicked
      | .ok sec nsec => .ok (.timeV (timeUnix sec nsec).toUTC)
    else if srcColumnMeta.colType = "timestamp_ltz" then
      match extractTimestamp src with
      | .err => .err .parseError
      | .panicked => .panicked
      | .ok sec nsec =>
        let tt := timeUnix sec nsec
        let offset := zoneOffsetAt zone tt
        .ok (.timeV (tt.add ((-offset) * 1000000000)))
    else if srcColumnMeta.colType = "timestamp_tz" then
      match stringsSplit src ' ' with
      | [tm0, tm1] =>
        match extractTimestamp tm0 with
        | .err => .err .parseError
        | .panicked => .panicked
        | .ok sec nsec =>
          match parseInt64 tm1 with
          | none => .err (.invalidTimestampTz src)
          | some offset =>
            .ok (.timeV ((timeUnix sec nsec).inLoc (locationWithOffset (offset - 1440))))
      | _ => .err (.invalidTimestampTz src)
    else .ok (.str src)

theorem splitAtFirstDot_eq_none {cs : List Char} :
    splitAtFirstDot cs = none ↔ '.' ∉ cs := by
  induction cs with
  | nil => simp [splitAtFirstDot]
  | cons c cs ih =>
    by_cases hc : c = '.'
    · subst hc
      simp [splitAtFirstDot]
    · rcases h : splitAtFirstDot cs with _ | ⟨pre, post⟩ <;>
        simp [splitAtFirstDot, hc, h, Ne.symm hc, ← ih]

theorem splitAtFirstDot_append {pre : List Char} (post : List Char)
    (h : '.' ∉ pre) :
    splitAtFirstDot (pre ++ '.' :: post) = some (pre, post) := by
  induction pre with
  | nil => simp [splitAtFirstDot]
  | cons c cs ih =>
    have hc : c ≠ '.' := fun e => h (by simp [e])
    have hcs : '.' ∉ cs := fun hm => h (List.mem_cons_of_mem _ hm)
    simp [splitAtFirstDot, hc, ih hcs]

theorem flatten_replicate_singleton (k : Nat) (c : Char) :
    List.flatten (List.replicate k [c]) = List.replicate k c := by
  induction k with
  | zero => rfl
  | succ k ih => simp [List.replicate_succ, ih]

theorem digitChar_facts {d : Nat} (h : d < 10) :
    digitVal (digitChar d) = some d ∧ digitChar d ≠ '-' ∧ digitChar d ≠ '+' := by
  interval_cases d <;> exact ⟨by decide, by decide, by decide⟩

theorem parseDigitsAux_natToDigitsCore :
    ∀ (fuel n acc : Nat) (rest : List Char), n ≤ fuel →
      parseDigitsAux acc (natToDigitsCore fuel n ++ rest)
        = parseDigitsAux (acc * 10 ^ (natToDigitsCore fuel n).length + n) rest := by
  intro fuel
  induction fuel with
  | zero =>
    intro n acc rest h
    have hn : n = 0 := Nat.le_zero.mp h
    subst hn
    simp [natToDigitsCore]
  | succ f ih =>
    intro n acc rest h
    by_cases h0 : n = 0
    · subst h0
      simp [natToDigitsCore]
    · have hdiv : n / 10 ≤ f := by omega
      have hmod : n % 10 < 10 := Nat.mod_lt _ (by decide)
      have hrec : natToDigitsCore (f + 1) n
          = natToDigitsCore f (n / 10) ++ [digitChar (n % 10)] := by
        simp [natToDigitsCore, h0]
      rw [hrec, List.append_assoc, List.singleton_append,
        ih (n / 10) acc (digitChar (n % 10) :: rest) hdiv]
      have hstep : parseDigitsAux (acc * 10 ^ (natToDigitsCore f (n / 10)).length + n / 10)
            (digitChar (n % 10) :: rest)
          = parseDigitsAux ((acc * 10 ^ (natToDigitsCore f (n / 10)).length + n / 10) * 10
              + n % 10) rest := by
        simp [parseDigitsAux, (digitChar_facts hmod).1]
      rw [hstep]
      congr 1
      have hlen : (natToDigitsCore f (n / 10) ++ [digitChar (n % 10)]).length
          = (natToDigitsCore f (n / 10)).length + 1 := by simp
      rw [hlen, pow_succ, ← mul_assoc]
      generalize acc * 10 ^ (natToDigitsCore f (n / 10)).length = M
      omega

theorem natToDigitsCore_mem_digit :
    ∀ (fuel n : Nat) (c : Char), c ∈ natToDigitsCore fuel n →
      ∃ d, d < 10 ∧ c = digitChar d := by
  intro fuel
  induction fuel with
  | zero => intro n c hm; simp [natToDigitsCore] at hm
  | succ f ih =>
    intro n c hm
    by_cases h0 : n = 0
    · subst h0; simp [natToDigitsCore] at hm
    · simp only [natToDigitsCore, h0, if_false, List.mem_append,
        List.mem_singleton] at hm
      rcases hm with hm | hm
      · exact ih (n / 10) c hm
      · exact ⟨n % 10, Nat.mod_lt _ (by decide), hm⟩

theorem natToDigits_ne_nil {n : Nat} (h : n ≠ 0) : natToDigits n ≠ [] := by
  have hfuel : ∃ f, n = f + 1 := ⟨n - 1, by omega⟩
  rcases hfuel with ⟨f, hf⟩
  rw [natToDigits, hf]
  simp only [natToDigitsCore, h]
  rw [hf] at h
  simp [h]

theorem parseDigits_natToDigits {n : Nat} (h : n ≠ 0) :
    parseDigits (natToDigits n) = some n := by
  rcases hd : natToDigits n with _ | ⟨c, cs⟩
  · exact absurd hd (natToDigits_ne_nil h)
  · have h1 : parseDigits (c :: cs) = parseDigitsAux 0 (c :: cs) := rfl
    rw [h1, ← hd]
    have h2 := parseDigitsAux_natToDigitsCore n n 0 [] (Nat.le_refl n)
    rw [List.append_nil] at h2
    rw [natToDigits, h2]
    simp [parseDigitsAux]

theorem parseInt64_mk_natToDigits {m : Nat} (h0 : m ≠ 0)
    (h : (m : Int) ≤ int64Max) :
    parseInt64 (String.mk (natToDigits m)) = some (m : Int) := by
  rcases hd : natToDigits m with _ | ⟨c, cs⟩
  · exact absurd hd (natToDigits_ne_nil h0)
  · have hc : c ∈ natToDigits m := by rw [hd]; exact List.mem_cons_self _ _
    rcases natToDigitsCore_mem_digit m m c hc with ⟨d, hd10, hcd⟩
    have hminus : c ≠ '-' := by rw [hcd]; exact (digitChar_facts hd10).2.1
    have hplus : c ≠ '+' := by rw [hcd]; exact (digitChar_facts hd10).2.2
    have hparse : parseDigits (c :: cs) = some m := by
      rw [← hd]; exact parseDigits_natToDigits h0
    have hdata : (String.mk (natToDigits m)).data = c :: cs := by rw [hd]
    simp only [parseInt64, hdata, hminus, if_false, hplus, hparse]
    simp only [int64Range, int64Min, int64Max] at *
    have hge : (0 : Int) ≤ (m : Int) := Int.natCast_nonneg m
    rw [if_pos ⟨by omega, h⟩]

theorem parseInt64_formatNat {u : Nat} (h : (u : Int) ≤ int64Max) :
    parseInt64 (formatNat u) = some (u : Int) := by
  by_cases h0 : u = 0
  · subst h0; decide
  · rw [formatNat, if_neg h0]
    exact parseInt64_mk_natToDigits h0 h

theorem parseInt64_formatInt {n : Int} (h1 : int64Min ≤ n) (h2 : n ≤ int64Max) :
    parseInt64 (formatInt n) = some n := by
  by_cases hneg : n < 0
  · have h0 : n.natAbs ≠ 0 := by omega
    rcases hd : natToDigits n.natAbs with _ | ⟨c, cs⟩
    · exact absurd hd (natToDigits_ne_nil h0)
    · have hdata : (formatInt n).data = '-' :: natToDigits n.natAbs := by
        rw [formatInt, if_pos hneg]
      have hparse : parseDigits (natToDigits n.natAbs) = some n.natAbs :=
        parseDigits_natToDigits h0
      have hcond : int64Min ≤ -((n.natAbs : Int)) ∧ -((n.natAbs : Int)) ≤ int64Max := by
        simp only [int64Min, int64Max] at *
        omega
      have hval : -((n.natAbs : Int)) = n := by omega
      simp only [parseInt64, hdata, if_pos rfl, hparse, int64Range,
        if_pos hcond, hval]
      rw [if_pos trivial, if_pos ⟨h1, h2⟩]
  · rw [formatInt, if_neg hneg]
    have hcast : ((n.toNat : Int)) = n := by omega
    rw [← hcast]
    exact parseInt64_formatNat (by omega)

theorem stringToValue_tz (zone : Int → Int) (destVal : DriverValue) (src : String) :
    stringToValue zone destVal ⟨"timestamp_tz"⟩ (some src)
      = match stringsSplit src ' ' with
        | [tm0, tm1] =>
          match extractTimestamp tm0 with
          | .err => .err .parseError
          | .panicked => .panicked
          | .ok sec nsec =>
            match parseInt64 tm1 with
            | none => .err (.invalidTimestampTz src)
            | some offset =>
              .ok (.timeV ((timeUnix sec nsec).inLoc (locationWithOffset (offset - 1440))))
        | _ => .err (.invalidTimestampTz src) := rfl

theorem stringToValue_ltz (zone : Int → Int) (destVal : DriverValue) (src : String) :
    stringToValue zone destVal ⟨"timestamp_ltz"⟩ (some src)
      = match extractTimestamp src with
        | .err => .err .parseError
        | .panicked => .panicked
        | .ok sec nsec =>
          .ok (.timeV ⟨sec * 1000000000 + nsec
            + -(zone ((sec * 1000000000 + nsec).fdiv 1000000000)) * 1000000000,
            .localZone⟩) := rfl

/-- C1: for every tag and every local-zone assignment, decoding an
absent field (a nil source string) returns no error but leaves the
contents of `*dest` unchanged: the source statement `dest = nil`
reassigns the local pointer parameter, so the destination is not set to
null as the claim states. -/
theorem stringToValue_absent_noop :
    ∀ (zone : Int → Int) (destVal : DriverValue) (srcColumnMeta : ExecResponseRowType),
      stringToValue zone destVal srcColumnMeta none = .ok destVal :=
  fun _ _ _ => rfl

/-- C2 counterexample: at `n = 0`, `encode` produces `"0"`, but decoding
`"0"` with the `FIXED` tag yields the text value `"0"` (the raw string
passed through), not the native integer `0`. -/
theorem decode_encode_fixed_cex :
    valueToString (.intV 0) = .ok (some "0")
    ∧ stringToValue (fun _ => 0) .null ⟨"FIXED"⟩ (some "0") = .ok (.str "0")
    ∧ DriverValue.str "0" ≠ DriverValue.int64V 0 := by
  refine ⟨by decide, rfl, by decide⟩

/-- C2 (amended): for every in-range signed integer `n` and unsigned
integer `u`, `encode` produces the exact base-10 decimal string of the
value, and decoding that string with the `FIXED` tag returns it
unchanged as a text value (`FIXED` is not in the decode dispatch set,
so the string passes through); parsing the string back as a base-10
integer recovers the value exactly, so no information is lost. -/
theorem decode_encode_fixed :
    ∀ (zone : Int → Int) (destVal : DriverValue),
    (∀ n : Int, int64Min ≤ n → n ≤ int64Max →
      valueToString (.intV n) = .ok (some (formatInt n))
      ∧ stringToValue zone destVal ⟨"FIXED"⟩ (some (formatInt n)) = .ok (.str (formatInt n))
      ∧ parseInt64 (formatInt n) = some n)
    ∧ (∀ u : Nat, (u : Int) ≤ int64Max →
      valueToString (.uintV u) = .ok (some (formatNat u))
      ∧ stringToValue zone destVal ⟨"FIXED"⟩ (some (formatNat u)) = .ok (.str (formatNat u))
      ∧ parseInt64 (formatNat u) = some (u : Int)) := by
  intro zone destVal
  constructor
  · intro n hn1 hn2
    exact ⟨rfl, rfl, parseInt64_formatInt hn1 hn2⟩
  · intro u hu
    exact ⟨rfl, rfl, parseInt64_formatNat hu⟩

/-- C2 witness: the amended round trip at the concrete inputs `-5` and
`7`. -/
theorem decode_encode_fixed_witness :
    valueToString (.intV (-5)) = .ok (some "-5")
    ∧ stringToValue (fun _ => 0) .null ⟨"FIXED"⟩ (some "-5") = .ok (.str "-5")
    ∧ parseInt64 "-5" = some (-5)
    ∧ parseInt64 "7" = some 7 := by
  have hi := (decode_encode_fixed (fun _ => 0) .null).1 (-5) (by decide) (by decide)
  have hu := (decode_encode_fixed (fun _ => 0) .null).2 7 (by decide)
  have e : formatInt (-5) = "-5" := by decide
  have e2 : formatNat 7 = "7" := by decide
  rw [e] at hi
  rw [e2] at hu
  exact ⟨hi.1, hi.2.1, hi.2.2, hu.2.2⟩

/-- C3: `extractTimestamp` on a string with no dot parses the whole
string as the signed seconds field with nanoseconds 0 (an invalid
string is a parse error); on a string `pre.post` it parses `pre` as
seconds (a parse failure is an error) and `post`, right-padded with
zeros to exactly 9 digits, as nanoseconds (a parse failure is an
error); the three spec examples evaluate as stated. -/
theorem extractTimestamp_spec :
    (∀ s : String, '.' ∉ s.data →
      extractTimestamp s
        = match parseInt64 s with
          | some sec => .ok sec 0
          | none => .err)
    ∧ (∀ pre post : List Char, '.' ∉ pre →
        parseInt64 (String.mk pre) = none →
        extractTimestamp (String.mk (pre ++ '.' :: post)) = .err)
    ∧ (∀ (pre post : List Char) (sec : Int), '.' ∉ pre →
        parseInt64 (String.mk pre) = some sec → post.length ≤ 9 →
        extractTimestamp (String.mk (pre ++ '.' :: post))
          = match parseInt64 (String.mk (post ++ List.replicate (9 - post.length) '0')) with
            | some nsec => .ok sec nsec
            | none => .err)
    ∧ extractTimestamp "1000" = .ok 1000 0
    ∧ extractTimestamp "1000.123" = .ok 1000 123000000
    ∧ extractTimestamp "1000.123456789" = .ok 1000 123456789 := by
  refine ⟨?_, ?_, ?_, by decide, by decide, by decide⟩
  · intro s h
    have hnone : splitAtFirstDot s.data = none := splitAtFirstDot_eq_none.mpr h
    simp only [extractTimestamp, hnone]
  · intro pre post h hparse
    have hsplit : splitAtFirstDot (String.mk (pre ++ '.' :: post)).data = some (pre, post) :=
      splitAtFirstDot_append post h
    simp only [extractTimestamp, hsplit, hparse]
  · intro pre post sec h hparse hlen
    have hsplit : splitAtFirstDot (String.mk (pre ++ '.' :: post)).data = some (pre, post) :=
      splitAtFirstDot_append post h
    have hpad : stringsRepeat "0" (9 - (post.length : Int))
        = some (String.mk (List.replicate (9 - post.length) '0')) := by
      rw [stringsRepeat, if_neg (by omega)]
      have hdata : ("0" : String).data = ['0'] := rfl
      rw [hdata, flatten_replicate_singleton]
      have htn : (9 - (post.length : Int)).toNat = 9 - post.length := by omega
      rw [htn]
    have happ : String.mk post ++ String.mk (List.replicate (9 - post.length) '0')
        = String.mk (post ++ List.replicate (9 - post.length) '0') := rfl
    simp only [extractTimestamp, hsplit, hparse, hpad, happ]

/-- C3 witness: the three general clauses applied at concrete inputs. -/
theorem extractTimestamp_spec_witness :
    extractTimestamp "12x" = .err
    ∧ extractTimestamp "x.25" = .err
    ∧ extractTimestamp "7.25" = .ok 7 250000000 := by
  refine ⟨?_, ?_, ?_⟩
  · rw [extractTimestamp_spec.1 "12x" (by decide)]
    decide
  · have e : ("x.25" : String) = String.mk (['x'] ++ '.' :: ['2', '5']) := by decide
    rw [e]
    exact extractTimestamp_spec.2.1 ['x'] ['2', '5'] (by decide) (by decide)
  · have e : ("7.25" : String) = String.mk (['7'] ++ '.' :: ['2', '5']) := by decide
    rw [e, extractTimestamp_spec.2.2.1 ['7'] ['2', '5'] 7 (by decide) (by decide) (by decide)]
    decide

/-- C4 counterexample: on an input whose fractional part has 10 digits,
`extractTimestamp` does not return normally with the digits parsed
as-is: it panics (`strings.Repeat` is called with a negative count). -/
theorem extractTimestamp_long_fraction_cex :
    extractTimestamp "1000.1234567890" = .panicked := by decide

/-- C4 (amended): for every input whose seconds prefix parses and whose
fractional part (after the dot) is longer than 9 digits,
`extractTimestamp` panics — `strings.Repeat("0", 9-len(s))` receives a
negative count — rather than truncating the fraction or parsing the
digits as-is. -/
theorem extractTimestamp_long_fraction_panics :
    ∀ (pre post : List Char) (sec : Int), '.' ∉ pre →
      parseInt64 (String.mk pre) = some sec → 9 < post.length →
      extractTimestamp (String.mk (pre ++ '.' :: post)) = .panicked := by
  intro pre post sec h hparse hlen
  have hsplit : splitAtFirstDot (String.mk (pre ++ '.' :: post)).data = some (pre, post) :=
    splitAtFirstDot_append post h
  have hpad : stringsRepeat "0" (9 - (post.length : Int)) = none := by
    rw [stringsRepeat, if_pos (by omega)]
  simp only [extractTimestamp, hsplit, hparse, hpad]

/-- C4 witness: the amended statement applied at a concrete input with
a 10-digit fraction. -/
theorem extractTimestamp_long_fraction_witness :
    extractTimestamp "1.0123456789" = .panicked := by
  have e : ("1.0123456789" : String)
      = String.mk (['1'] ++ '.' :: ['0', '1', '2', '3', '4', '5', '6', '7', '8', '9']) := by
    decide
  rw [e]
  exact extractTimestamp_long_fraction_panics ['1']
    ['0', '1', '2', '3', '4', '5', '6', '7', '8', '9'] 1 (by decide) (by decide) (by decide)

/-- C5 counterexample: for the input `"xyz abc"` the string splits into
exactly two fields and the offset field `"abc"` is not a valid base-10
integer, yet decoding with `TIMESTAMP_TZ` fails with the plain parse
error from the epoch part, not with `InvalidTimestampTz`: the epoch
part is parsed first and its error is returned as-is. -/
theorem decode_timestamp_tz_itz_cex :
    stringToValue (fun _ => 0) .null ⟨"timestamp_tz"⟩ (some "xyz abc") = .err .parseError
    ∧ (stringsSplit "xyz abc" ' ').length = 2
    ∧ parseInt64 "abc" = none := by
  refine ⟨rfl, by decide, by decide⟩

/-- C5 (amended): decoding with `TIMESTAMP_TZ` fails with
`InvalidTimestampTz` carrying the original raw string exactly when the
raw string does not split on spaces into exactly two fields, or when it
does, the epoch part extracts successfully, and the offset field is not
a valid base-10 integer (an epoch part that fails to extract makes its
own error or panic the outcome instead); in particular
`decode("abc", TIMESTAMP_TZ)` fails with `InvalidTimestampTz`. -/
theorem decode_timestamp_tz_itz_iff :
    (∀ (zone : Int → Int) (destVal : DriverValue) (src : String),
      stringToValue zone destVal ⟨"timestamp_tz"⟩ (some src)
          = .err (.invalidTimestampTz src)
        ↔ ((stringsSplit src ' ').length ≠ 2
           ∨ ∃ a b sec nsec, stringsSplit src ' ' = [a, b]
               ∧ extractTimestamp a = .ok sec nsec ∧ parseInt64 b = none))
    ∧ ∀ (zone : Int → Int) (destVal : DriverValue),
        stringToValue zone destVal ⟨"timestamp_tz"⟩ (some "abc")
          = .err (.invalidTimestampTz "abc") := by
  refine ⟨?_, fun zone destVal => rfl⟩
  intro zone destVal src
  rw [stringToValue_tz]
  rcases hs : stringsSplit src ' ' with _ | ⟨a, _ | ⟨b, _ | ⟨c, rest⟩⟩⟩
  · exact iff_of_true rfl (.inl (by simp))
  · exact iff_of_true rfl (.inl (by simp))
  · rcases he : extractTimestamp a with ⟨sec, nsec⟩ | _ | _
    · rcases hp : parseInt64 b with _ | off
      · exact iff_of_true (by simp [he, hp]) (.inr ⟨a, b, sec, nsec, rfl, he, hp⟩)
      · refine iff_of_false (by simp [he, hp]) ?_
        rintro (hlen | ⟨a', b', sec', nsec', hl, he', hp'⟩)
        · exact hlen rfl
        · injection hl with h1 h2
          injection h2 with h3 _
          subst h1
          subst h3
          rw [hp] at hp'
          exact Option.noConfusion hp'
    · refine iff_of_false (by simp [he]) ?_
      rintro (hlen | ⟨a', b', sec', nsec', hl, he', hp'⟩)
      · exact hlen rfl
      · injection hl with h1 h2
        injection h2 with h3 _
        subst h1
        subst h3
        rw [he] at he'
        exact TsResult.noConfusion he'
    · refine iff_of_false (by simp [he]) ?_
      rintro (hlen | ⟨a', b', sec', nsec', hl, he', hp'⟩)
      · exact hlen rfl
      · injection hl with h1 h2
        injection h2 with h3 _
        subst h1
        subst h3
        rw [he] at he'
        exact TsResult.noConfusion he'
  · exact iff_of_true rfl (.inl (by simp))

/-- C5 witness: a three-field payload, rejected with
`InvalidTimestampTz` carrying the raw string, via the amended
biconditional. -/
theorem decode_timestamp_tz_itz_witness :
    stringToValue (fun _ => 0) .null ⟨"timestamp_tz"⟩ (some "1 2 3")
      = .err (.invalidTimestampTz "1 2 3") :=
  (decode_timestamp_tz_itz_iff.1 (fun _ => 0) .null "1 2 3").mpr (.inl (by decide))

/-- C6: for every well-formed TIMESTAMP_TZ payload — a string that
splits on spaces into an epoch part whose extraction yields
`(sec, nsec)` and an offset part parsing to the integer `off` — the
decoded value is the instant `sec` seconds + `nsec` nanoseconds since
the epoch attached to a fixed-offset zone of `off - 1440` minutes; in
particular `"1000.5 1440"` decodes to epoch 1000s + 500000000ns at
offset 0 minutes and `"0 1380"` decodes to epoch 0 at offset -60
minutes. -/
theorem decode_timestamp_tz_value :
    (∀ (zone : Int → Int) (destVal : DriverValue) (src a b : String) (sec nsec off : Int),
      stringsSplit src ' ' = [a, b] →
      extractTimestamp a = .ok sec nsec →
      parseInt64 b = some off →
      stringToValue zone destVal ⟨"timestamp_tz"⟩ (some src)
        = .ok (.timeV ⟨sec * 1000000000 + nsec, .fixedOffset (off - 1440)⟩))
    ∧ (∀ (zone : Int → Int) (destVal : DriverValue),
        stringToValue zone destVal ⟨"timestamp_tz"⟩ (some "1000.5 1440")
          = .ok (.timeV ⟨1000500000000, .fixedOffset 0⟩))
    ∧ (∀ (zone : Int → Int) (destVal : DriverValue),
        stringToValue zone destVal ⟨"timestamp_tz"⟩ (some "0 1380")
          = .ok (.timeV ⟨0, .fixedOffset (-60)⟩)) := by
  refine ⟨?_, fun zone destVal => rfl, fun zone destVal => rfl⟩
  intro zone destVal src a b sec nsec off hs he hp
  rw [stringToValue_tz, hs]
  simp [he, hp, timeUnix, GoTime.inLoc, locationWithOffset]

/-- C6 witness: the general clause applied at the concrete payload
`"7 1440"`. -/
theorem decode_timestamp_tz_value_witness :
    stringToValue (fun _ => 0) .null ⟨"timestamp_tz"⟩ (some "7 1440")
      = .ok (.timeV ⟨7000000000, .fixedOffset 0⟩) := by
  have h := decode_timestamp_tz_value.1 (fun _ => 0) .null "7 1440" "7" "1440"
    7 0 1440 (by decide) (by decide) (by decide)
  exact h.trans (by decide)

/-- C7: for every non-null source string and every tag outside the
recognized set, decoding returns the raw string unchanged as a text
value and raises no error. -/
theorem decode_unrecognized_tag :
    ∀ (zone : Int → Int) (destVal : DriverValue) (src colType : String),
      colType ∉ (["text", "date", "time", "timestamp_ntz", "timestamp_ltz",
        "timestamp_tz"] : List String) →
      stringToValue zone destVal ⟨colType⟩ (some src) = .ok (.str src) := by
  intro zone destVal src colType h
  obtain ⟨h1, h2, h3, h4, h5, h6⟩ :
      colType ≠ "text" ∧ colType ≠ "date" ∧ colType ≠ "time"
        ∧ colType ≠ "timestamp_ntz" ∧ colType ≠ "timestamp_ltz"
        ∧ colType ≠ "timestamp_tz" := by
    simpa using h
  simp [stringToValue, h1, h2, h3, h4, h5, h6]

/-- C7 witness: `decode("42", FIXED)` passes through unchanged since
`"FIXED"` is not a recognized decode tag. -/
theorem decode_unrecognized_tag_witness :
    stringToValue (fun _ => 0) .null ⟨"FIXED"⟩ (some "42") = .ok (.str "42") :=
  decode_unrecognized_tag (fun _ => 0) .null "42" "FIXED" (by decide)

/-- C8: for every well-formed TIMESTAMP_LTZ payload yielding
`(sec, nsec)`, the decoded value is the candidate instant
`sec * 1e9 + nsec` nanoseconds since the epoch, shifted by the negative
of the local-zone offset resolved at that instant's absolute unix
second (`zone` applied to the floor-divided second of the candidate
instant, not a fixed offset), still carried in the local zone. -/
theorem decode_timestamp_ltz :
    ∀ (zone : Int → Int) (destVal : DriverValue) (src : String) (sec nsec : Int),
      extractTimestamp src = .ok sec nsec →
      stringToValue zone destVal ⟨"timestamp_ltz"⟩ (some src)
        = .ok (.timeV ⟨(sec * 1000000000 + nsec)
            - zone ((sec * 1000000000 + nsec).fdiv 1000000000) * 1000000000,
            .localZone⟩) := by
  intro zone destVal src sec nsec h
  rw [stringToValue_ltz]
  simp [h, sub_eq_add_neg]

/-- C8 witness: decoding `"10"` as TIMESTAMP_LTZ under a constant
local-zone offset of 3600 seconds shifts the instant back by one
hour. -/
theorem decode_timestamp_ltz_witness :
    stringToValue (fun _ => 3600) .null ⟨"timestamp_ltz"⟩ (some "10")
      = .ok (.timeV ⟨-3590000000000, .localZone⟩) := by
  have h := decode_timestamp_ltz (fun _ => 3600) .null "10" 10 0 (by decide)
  exact h.trans (by decide)

/-- C10: every non-nil value of reflect kind Struct — including
`time.Time`, the very type `goTypeToSnowflake` maps to `DATE` — drives
`valueToString` into the composite branch where `reflect.Value.IsNil`
panics on a struct value, so encoding never returns a value or an
`Unexpected type` error for struct inputs and no temporal value can be
encoded. -/
theorem valueToString_struct_panics :
    (∀ v : GoValue, kindOf v = .kStruct → valueToString v = .panicked)
    ∧ goTypeToSnowflake (.structV "time.Time") = "DATE" := by
  refine ⟨?_, rfl⟩
  intro v h
  cases v <;> first | rfl | simp [kindOf] at h

/-- C10 witness: the struct clause applied at the `time.Time` model
value. -/
theorem valueToString_struct_panics_witness :
    valueToString (.structV "time.Time") = .panicked :=
  valueToString_struct_panics.1 (.structV "time.Time") rfl
